import Mathlib

/-!
Verification development for the beancount-staging web frontend
(crates/beancount-staging-web/frontend/src/app.ts and api.ts).

The embedding models JavaScript strings over Lean strings. String
operations that only matter on ASCII account names (toLowerCase, trim,
whitespace classes) are modelled with their ASCII behaviour.
String.prototype.localeCompare is locale dependent; it is modelled here
as case-sensitive code-point lexicographic comparison (the ordering the
spec asserts, and the ICU-less fallback behaviour).
-/

set_option linter.unusedVariables false

/-- JS String.prototype.toLowerCase, modelled character-wise (ASCII). -/
def jsToLower (s : String) : String :=
  String.mk (s.data.map Char.toLower)

/-- Splits a character list at every occurrence of the separator.
Always returns at least one (possibly empty) chunk, like JS split. -/
def splitCharsAux (sep : Char) : List Char → List Char → List (List Char)
  | [], acc => [acc.reverse]
  | c :: rest, acc =>
    if c = sep then acc.reverse :: splitCharsAux sep rest []
    else splitCharsAux sep rest (c :: acc)

/-- JS String.prototype.split with a single-character separator. -/
def jsSplit (s : String) (sep : Char) : List String :=
  (splitCharsAux sep s.data []).map String.mk

/-- JS String.prototype.startsWith. -/
def jsStartsWith (s p : String) : Bool :=
  p.data.isPrefixOf s.data

/-- JS String.prototype.trim (whitespace modelled by Char.isWhitespace). -/
def jsTrim (s : String) : String :=
  String.mk (((s.data.dropWhile Char.isWhitespace).reverse.dropWhile Char.isWhitespace).reverse)

/-- Case-sensitive lexicographic (code point) strict order on character lists. -/
def charListLt : List Char → List Char → Bool
  | [], [] => false
  | [], _ :: _ => true
  | _ :: _, [] => false
  | a :: as, b :: bs => if a < b then true else if b < a then false else charListLt as bs

/-- Case-sensitive lexicographic strict order on strings. -/
def lexLt (a b : String) : Prop :=
  charListLt a.data b.data = true

/-- Case-sensitive lexicographic (reflexive) order on strings. -/
def lexLe (a b : String) : Prop :=
  charListLt a.data b.data = true ∨ a = b

instance : DecidableRel lexLt := fun _ _ => inferInstanceAs (Decidable (_ = _))

instance : DecidableRel lexLe := fun _ _ => inferInstanceAs (Decidable (_ ∨ _))

/-- Model of String.prototype.localeCompare: -1, 0 or 1 by the
case-sensitive lexicographic order (see the header note on locales). -/
def localeCompareModel (a b : String) : Int :=
  if charListLt a.data b.data then -1 else if charListLt b.data a.data then 1 else 0

namespace StagingApp

/-- app.ts filterAccounts, lines 441-444: the lower-cased query split on
the path separator, empty segments dropped. -/
def queryPartsOf (query : String) : List String :=
  (jsSplit (jsToLower query) ':').filter (fun p => decide (p.length > 0))

/-- app.ts filterAccounts, line 448: the lower-cased account split on the
path separator (empty segments kept). -/
def accountPartsOf (account : String) : List String :=
  jsSplit (jsToLower account) ':'

/-- app.ts filterAccounts, lines 450-453: every query part must be a
prefix of at least one account part. -/
def accountMatches (queryParts : List String) (account : String) : Bool :=
  queryParts.all (fun queryPart =>
    (accountPartsOf account).any (fun accountPart => jsStartsWith accountPart queryPart))

/-- Index of the first element at position at least i whose text starts
with the query part (the inner while loop of matchesInOrder). -/
def findIdxFrom (parts : List String) (queryPart : String) (i : Nat) : Option Nat :=
  ((parts.drop i).findIdx? (fun p => jsStartsWith p queryPart)).map (· + i)

/-- Whether the last element starts with the query part; false for the
empty list (JS: !undefined?.startsWith(q) is true, so the check fails). -/
def lastStarts (parts : List String) (queryPart : String) : Bool :=
  match parts.getLast? with
  | some l => jsStartsWith l queryPart
  | none => false

/-- app.ts matchesInOrder, lines 470-488, one loop iteration per query
part carrying the running account index. -/
def matchesInOrderAux (accountParts : List String) : List String → Nat → Bool
  | [], _ => true
  | queryPart :: rest, accountIndex =>
    let nextIndex :=
      match findIdxFrom accountParts queryPart accountIndex with
      | some j => j + 1
      | none => accountParts.length
    if (nextIndex == accountParts.length) && !(lastStarts accountParts queryPart) then false
    else matchesInOrderAux accountParts rest nextIndex

/-- app.ts matchesInOrder, lines 470-488. -/
def matchesInOrder (queryParts accountParts : List String) : Bool :=
  matchesInOrderAux accountParts queryParts 0

/-- app.ts filterAccounts, lines 455-467: the sort comparator. -/
def jsComparator (queryParts : List String) (a b : String) : Int :=
  let aInOrder := matchesInOrder queryParts (accountPartsOf a)
  let bInOrder := matchesInOrder queryParts (accountPartsOf b)
  if aInOrder && !bInOrder then -1
  else if !aInOrder && bInOrder then 1
  else localeCompareModel a b

/-- Abbreviation for the comparator bucket bit of an entry. -/
def inOrderB (queryParts : List String) (x : String) : Bool :=
  matchesInOrder queryParts (accountPartsOf x)

/-- The ordering realised by Array.prototype.sort with jsComparator. -/
def sortRel (queryParts : List String) (a b : String) : Prop :=
  jsComparator queryParts a b ≤ 0

instance sortRelDecidable (queryParts : List String) : DecidableRel (sortRel queryParts) :=
  fun a b => inferInstanceAs (Decidable (jsComparator queryParts a b ≤ 0))

/-- app.ts filterAccounts, lines 438-468. Array.prototype.sort is a
stable sort by the comparator; the comparator ties only on identical
strings, so its result equals this insertion sort. -/
def filterAccounts (availableAccounts : List String) (query : String) : List String :=
  if query = "" then availableAccounts
  else
    let queryParts := queryPartsOf query
    List.insertionSort (sortRel queryParts)
      (availableAccounts.filter (fun account => accountMatches queryParts account))

end StagingApp

/-- Modelled from the spec (section 4.1 rule 3), for comparison with the
code: the in-order positional witness scan. Each query segment consumes
entry segments up to and including the first one it prefixes; the next
query segment continues from the following position; a query segment
with no matching segment left means no witness. -/
def specInOrder : List String → List String → Bool
  | [], _ => true
  | queryPart :: rest, entryParts =>
    match StagingApp.findIdxFrom entryParts queryPart 0 with
    | some j => specInOrder rest (entryParts.drop (j + 1))
    | none => false

/-- frontend/src/types.ts Amount. -/
structure Amount where
  value : String
  currency : String
deriving DecidableEq, Repr

/-- frontend/src/types.ts Posting. -/
structure Posting where
  account : String
  amount : Option Amount
  cost : Option String
  price : Option String
deriving DecidableEq, Repr

/-- frontend/src/types.ts Transaction. -/
structure Transaction where
  date : String
  flag : String
  payee : Option String
  narration : Option String
  tags : List String
  links : List String
  postings : List Posting
deriving DecidableEq, Repr

/-- frontend/src/types.ts Directive: a queue item with a stable id. -/
structure Directive where
  id : String
  transaction : Transaction
deriving DecidableEq, Repr

/-- app.ts EditState: the per-item draft. -/
structure EditState where
  account : String
  payee : Option String
  narration : Option String
deriving DecidableEq, Repr

/-- Lookup in the editStates JS Map (keys are unique; first match). -/
def esGet : List (String × EditState) → String → Option EditState
  | [], _ => none
  | p :: rest, k => if p.1 == k then some p.2 else esGet rest k

/-- JS Map.has. -/
def esHas (m : List (String × EditState)) (k : String) : Bool :=
  (esGet m k).isSome

/-- JS Map.set: replace the value in place if the key exists, else append. -/
def esSet (m : List (String × EditState)) (k : String) (v : EditState) :
    List (String × EditState) :=
  match m with
  | [] => [(k, v)]
  | p :: rest => if p.1 == k then (k, v) :: rest else p :: esSet rest k v

/-- JS Map.delete. -/
def esDelete (m : List (String × EditState)) (k : String) : List (String × EditState) :=
  m.filter (fun p => !(p.1 == k))

namespace StagingApp

/-- The state of a StagingApp instance that the claims depend on:
the queue, the cursor, the catalog, the draft store, and the
user-visible message, button and text surfaces. -/
structure AppState where
  directives : List Directive
  currentIndex : Int
  availableAccounts : List String
  editStates : List (String × EditState)
  messageClass : String
  messageText : String
  commitDisabled : Bool
  prevDisabled : Bool
  nextDisabled : Bool
  transactionText : String
  counterText : String
deriving DecidableEq, Repr

/-- Outcome of the POST transaction/id/commit network call
(api.ts commitTransaction, lines 100-114): a parsed CommitResponse on
resp.ok; on !resp.ok the optional error payload string and the HTTP
statusText; or a rejected fetch, carrying the JS String(err) form. -/
inductive CommitNet where
  | ok (remainingCount : Nat)
  | httpError (errorPayload : Option String) (statusText : String)
  | transportError (errString : String)
deriving DecidableEq, Repr

/-- Outcome of the GET init call (api.ts init): the InitResponse fields,
or a failure carrying the JS String(err) form. The code ignores the
current index reported by the server. -/
inductive InitResult where
  | ok (items : List Directive) (currentIndexResp : Int) (availableAccountsResp : List String)
  | err (errString : String)
deriving DecidableEq, Repr

/-- app.ts showError. -/
def showError (s : AppState) (message : String) : AppState :=
  { s with messageClass := "error", messageText := message }

/-- app.ts showSuccess. -/
def showSuccess (s : AppState) (message : String) : AppState :=
  { s with messageClass := "success", messageText := message }

/-- app.ts clearMessage. -/
def clearMessage (s : AppState) : AppState :=
  { s with messageClass := "", messageText := "" }

/-- JS this.directives[this.currentIndex]: undefined when out of bounds,
including a negative index. -/
def getDirective (s : AppState) : Option Directive :=
  if s.currentIndex < 0 then none else s.directives[s.currentIndex.toNat]?

/-- The default draft created by loadTransaction. -/
def defaultDraft : EditState :=
  { account := "Expenses:", payee := none, narration := none }

/-- app.ts updateCommitButton, lines 411-421: commit is enabled exactly
when the current item exists and its draft account is non-empty after
trimming. -/
def updateCommitButton (s : AppState) : AppState :=
  match getDirective s with
  | none => { s with commitDisabled := true }
  | some currentDirective =>
    let hasAccount :=
      match esGet s.editStates currentDirective.id with
      | none => false
      | some editState => (editState.account != "") && (jsTrim editState.account != "")
    { s with commitDisabled := !hasAccount }

/-- app.ts loadTransaction, lines 145-170. fetchErr models the outcome of
api.getTransaction for the current item: none is success (the response
body only feeds rendering), some e a failure with String(err) = e.
On success a default draft with account Expenses: is created if none
exists, the commit button is recomputed (via renderTransaction), the
counter is set and the message cleared. -/
def loadTransaction (s : AppState) (fetchErr : Option String) : AppState :=
  match getDirective s with
  | none => s
  | some currentDirective =>
    match fetchErr with
    | some e => showError s ("Failed to load transaction: " ++ e)
    | none =>
      let s1 :=
        if esHas s.editStates currentDirective.id then s
        else { s with
                editStates := esSet s.editStates currentDirective.id
                  { account := "Expenses:", payee := none, narration := none } }
      let s2 := updateCommitButton s1
      let s3 := { s2 with
                   counterText := "Transaction " ++ toString (s2.currentIndex + 1) ++ "/" ++
                     toString s2.directives.length }
      clearMessage s3

/-- app.ts reloadData, lines 117-143. On success the queue and catalog are
replaced wholesale; an empty queue shows the all-done surface and
disables everything; otherwise the numeric index is clamped when out of
bounds (the code never re-resolves the position by item id) and the
current transaction is loaded. -/
def reloadData (s : AppState) (r : InitResult) (fetchErr : Option String) : AppState :=
  match r with
  | .err e => showError s ("Failed to reload data: " ++ e)
  | .ok items currentIndexResp accounts =>
    let s1 := { s with directives := items, availableAccounts := accounts }
    if s1.directives.length = 0 then
      { s1 with
         messageClass := "success", messageText := "No transactions to review!",
         transactionText := "All done!", counterText := "0/0",
         commitDisabled := true, prevDisabled := true, nextDisabled := true }
    else
      let s2 :=
        if s1.currentIndex ≥ (s1.directives.length : Int) then
          { s1 with currentIndex := (s1.directives.length : Int) - 1 }
        else s1
      loadTransaction s2 fetchErr

/-- app.ts commit, lines 351-392. The Bool in the result records whether
the network commit call was issued. net models the commit call outcome
and fetchErr the follow-up loadTransaction fetch. -/
def commit (s : AppState) (net : CommitNet) (fetchErr : Option String) : AppState × Bool :=
  match getDirective s with
  | none => (s, false)
  | some currentDirective =>
    let expenseAccount := (esGet s.editStates currentDirective.id).map EditState.account
    match expenseAccount with
    | none => (showError s "Please enter an expense account", false)
    | some acc =>
      if acc = "" ∨ jsTrim acc = "" then
        (showError s "Please enter an expense account", false)
      else
        match net with
        | .ok remainingCount =>
          if remainingCount = 0 then
            ({ s with
                messageClass := "success", messageText := "All transactions committed!",
                transactionText := "All done!", counterText := "0/0",
                commitDisabled := true, prevDisabled := true, nextDisabled := true,
                directives := [] }, true)
          else
            let s1 := { s with
                         editStates := esDelete s.editStates currentDirective.id,
                         directives := s.directives.eraseIdx s.currentIndex.toNat }
            let s2 :=
              if s1.currentIndex ≥ (s1.directives.length : Int) then
                { s1 with currentIndex := (s1.directives.length : Int) - 1 }
              else s1
            (loadTransaction s2 fetchErr, true)
        | .httpError errorPayload statusText =>
          (showError s
            ("Failed to commit transaction: Error: " ++ errorPayload.getD statusText), true)
        | .transportError errString =>
          (showError s ("Failed to commit transaction: " ++ errString), true)

/-- app.ts next, lines 394-400: cyclic advance (JS % is truncating). -/
def next (s : AppState) (fetchErr : Option String) : AppState :=
  if s.directives.length = 0 then s
  else
    loadTransaction
      { s with currentIndex := Int.tmod (s.currentIndex + 1) (s.directives.length : Int) }
      fetchErr

/-- app.ts prev, lines 402-409: cyclic retreat. -/
def prev (s : AppState) (fetchErr : Option String) : AppState :=
  if s.directives.length = 0 then s
  else
    loadTransaction
      { s with currentIndex :=
          if s.currentIndex = 0 then (s.directives.length : Int) - 1 else s.currentIndex - 1 }
      fetchErr

end StagingApp

/-- A minimal transaction payload for concrete states. -/
def txnStub : Transaction :=
  { date := "2024-01-01", flag := "*", payee := none, narration := none,
    tags := [], links := [], postings := [] }

/-- A queue item with id a. -/
def dirA : Directive := { id := "a", transaction := txnStub }

/-- A queue item with id b. -/
def dirB : Directive := { id := "b", transaction := txnStub }

/-- A draft with a committable account value. -/
def draftFood : EditState :=
  { account := "Expenses:Food", payee := none, narration := none }

/-- A second draft, attached to item b in concrete states. -/
def draftOther : EditState :=
  { account := "Expenses:Other", payee := none, narration := none }

/-- A concrete reviewing state: queue [a, b], cursor at 0, no drafts. -/
def baseState : StagingApp.AppState :=
  { directives := [dirA, dirB], currentIndex := 0, availableAccounts := [],
    editStates := [], messageClass := "", messageText := "",
    commitDisabled := true, prevDisabled := false, nextDisabled := false,
    transactionText := "", counterText := "" }

/-- A concrete state with an empty queue. -/
def emptyState : StagingApp.AppState :=
  { baseState with directives := [] }

/-- A concrete reviewing state with drafts for both items. -/
def twoDraftState : StagingApp.AppState :=
  { baseState with editStates := [("a", draftFood), ("b", draftOther)] }

/-- A concrete reviewing state with a whitespace-only draft account. -/
def blankDraftState : StagingApp.AppState :=
  { baseState with
     editStates := [("a", { account := "   ", payee := none, narration := none })] }

/-- The example catalog from the spec, section 8. -/
def exampleCatalog : List String :=
  ["Expenses:Food:Restaurant", "Expenses:Food:Grocery", "Expenses:Transport:Taxi"]

theorem charListLt_irrefl : ∀ l : List Char, charListLt l l = false
  | [] => rfl
  | a :: as => by simp [charListLt, charListLt_irrefl as]

theorem charListLt_asymm : ∀ l₁ l₂ : List Char,
    charListLt l₁ l₂ = true → charListLt l₂ l₁ = false
  | [], [], h => by simp [charListLt] at h
  | [], _ :: _, _ => rfl
  | _ :: _, [], h => by simp [charListLt] at h
  | a :: as, b :: bs, h => by
    simp only [charListLt] at h ⊢
    by_cases hab : a < b
    · simp [hab, lt_asymm hab]
    · by_cases hba : b < a
      · simp [hab, hba] at h
      · simpa [hab, hba] using charListLt_asymm as bs (by simpa [hab, hba] using h)

theorem charListLt_trans : ∀ l₁ l₂ l₃ : List Char,
    charListLt l₁ l₂ = true → charListLt l₂ l₃ = true → charListLt l₁ l₃ = true
  | [], [], _, h1, _ => by simp [charListLt] at h1
  | [], _ :: _, [], _, h2 => by simp [charListLt] at h2
  | [], _ :: _, _ :: _, _, _ => rfl
  | _ :: _, [], _, h1, _ => by simp [charListLt] at h1
  | _ :: _, _ :: _, [], _, h2 => by simp [charListLt] at h2
  | a :: as, b :: bs, c :: cs, h1, h2 => by
    simp only [charListLt] at h1 h2 ⊢
    by_cases hab : a < b
    · by_cases hbc : b < c
      · simp [lt_trans hab hbc]
      · by_cases hcb : c < b
        · simp [hbc, hcb] at h2
        · have hbceq : b = c := le_antisymm (not_lt.mp hcb) (not_lt.mp hbc)
          subst hbceq
          simp [hab]
    · by_cases hba : b < a
      · simp [hab, hba] at h1
      · have habeq : a = b := le_antisymm (not_lt.mp hba) (not_lt.mp hab)
        subst habeq
        by_cases hac : a < c
        · simp [hac]
        · by_cases hca : c < a
          · simp [hac, hca] at h2
          · simp only [hac, hca, if_neg, if_false] at h1 h2 ⊢
            simp only [if_neg (lt_irrefl a)] at h1
            exact charListLt_trans as bs cs h1 h2

theorem charListLt_eq_of_not : ∀ l₁ l₂ : List Char,
    charListLt l₁ l₂ = false → charListLt l₂ l₁ = false → l₁ = l₂
  | [], [], _, _ => rfl
  | [], _ :: _, h1, _ => by simp [charListLt] at h1
  | _ :: _, [], _, h2 => by simp [charListLt] at h2
  | a :: as, b :: bs, h1, h2 => by
    simp only [charListLt] at h1 h2
    by_cases hab : a < b
    · simp [hab] at h1
    · by_cases hba : b < a
      · simp [hab, hba] at h2
      · have habeq : a = b := le_antisymm (not_lt.mp hba) (not_lt.mp hab)
        subst habeq
        simp only [lt_irrefl, if_false, if_neg] at h1 h2
        rw [charListLt_eq_of_not as bs (by simpa using h1) (by simpa using h2)]

theorem string_eq_of_data_eq {a b : String} (h : a.data = b.data) : a = b := by
  cases a
  cases b
  exact congrArg String.mk (by simpa using h)

theorem localeCompareModel_nonpos_iff (a b : String) :
    localeCompareModel a b ≤ 0 ↔ lexLe a b := by
  unfold localeCompareModel lexLe
  by_cases h1 : charListLt a.data b.data = true
  · simp [h1]
  · by_cases h2 : charListLt b.data a.data = true
    · have hne : a ≠ b := by
        intro heq
        subst heq
        simp [charListLt_irrefl] at h2
      simp [h1, h2, hne]
    · have heq : a = b :=
        string_eq_of_data_eq
          (charListLt_eq_of_not a.data b.data (by simpa using h1) (by simpa using h2))
      subst heq
      simp [charListLt_irrefl]

theorem lexLe_trans {a b c : String} (h1 : lexLe a b) (h2 : lexLe b c) : lexLe a c := by
  rcases h1 with h1 | h1
  · rcases h2 with h2 | h2
    · exact Or.inl (charListLt_trans _ _ _ h1 h2)
    · subst h2
      exact Or.inl h1
  · subst h1
    exact h2

theorem lexLe_total (a b : String) : lexLe a b ∨ lexLe b a := by
  by_cases h1 : charListLt a.data b.data = true
  · exact Or.inl (Or.inl h1)
  · by_cases h2 : charListLt b.data a.data = true
    · exact Or.inr (Or.inl h2)
    · exact Or.inl (Or.inr (string_eq_of_data_eq
        (charListLt_eq_of_not _ _ (by simpa using h1) (by simpa using h2))))

namespace StagingApp

theorem sortRel_iff (qps : List String) (a b : String) :
    sortRel qps a b ↔
      ((inOrderB qps a = true ∧ inOrderB qps b = false) ∨
        (inOrderB qps a = inOrderB qps b ∧ lexLe a b)) := by
  simp only [sortRel, jsComparator, inOrderB]
  cases ha : matchesInOrder qps (accountPartsOf a) <;>
    cases hb : matchesInOrder qps (accountPartsOf b) <;>
      simp [ha, hb, localeCompareModel_nonpos_iff]

theorem sortRel_total (qps : List String) (a b : String) :
    sortRel qps a b ∨ sortRel qps b a := by
  rw [sortRel_iff, sortRel_iff]
  cases ha : inOrderB qps a <;> cases hb : inOrderB qps b
  · rcases lexLe_total a b with h | h
    · exact Or.inl (Or.inr ⟨rfl, h⟩)
    · exact Or.inr (Or.inr ⟨rfl, h⟩)
  · exact Or.inr (Or.inl ⟨rfl, rfl⟩)
  · exact Or.inl (Or.inl ⟨rfl, rfl⟩)
  · rcases lexLe_total a b with h | h
    · exact Or.inl (Or.inr ⟨rfl, h⟩)
    · exact Or.inr (Or.inr ⟨rfl, h⟩)

theorem sortRel_trans (qps : List String) (a b c : String)
    (h1 : sortRel qps a b) (h2 : sortRel qps b c) : sortRel qps a c := by
  rw [sortRel_iff] at h1 h2 ⊢
  rcases h1 with ⟨ha, hb⟩ | ⟨hab, hle1⟩
  · rcases h2 with ⟨hb2, hc⟩ | ⟨hbc, hle2⟩
    · rw [hb] at hb2
      cases hb2
    · exact Or.inl ⟨ha, hbc.symm.trans hb⟩
  · rcases h2 with ⟨hb2, hc⟩ | ⟨hbc, hle2⟩
    · exact Or.inl ⟨hab.trans hb2, hc⟩
    · exact Or.inr ⟨hab.trans hbc, lexLe_trans hle1 hle2⟩

end StagingApp

theorem esGet_esSet_self (m : List (String × EditState)) (k : String) (v : EditState) :
    esGet (esSet m k v) k = some v := by
  induction m with
  | nil => simp [esSet, esGet]
  | cons p rest ih =>
    by_cases h : p.1 == k
    · simp [esSet, esGet, h]
    · simp [esSet, esGet, h, ih]

theorem esGet_esSet_ne (m : List (String × EditState)) (k k₂ : String) (v : EditState)
    (h : k₂ ≠ k) : esGet (esSet m k v) k₂ = esGet m k₂ := by
  have hkk : (k == k₂) = false := by
    simp
    exact fun heq => h heq.symm
  induction m with
  | nil => simp [esSet, esGet, hkk]
  | cons p rest ih =>
    by_cases hp : p.1 == k
    · have hp2 : (p.1 == k₂) = false := by
        have : p.1 = k := by simpa using hp
        simp [this]
        exact fun heq => h heq.symm
      simp [esSet, esGet, hp, hkk, hp2]
    · simp [esSet, esGet, hp, ih]

theorem esGet_esDelete_self (m : List (String × EditState)) (k : String) :
    esGet (esDelete m k) k = none := by
  induction m with
  | nil => simp [esDelete, esGet]
  | cons p rest ih =>
    by_cases hp : p.1 == k
    · simpa [esDelete, List.filter, hp] using ih
    · simpa [esDelete, List.filter, esGet, hp] using ih

theorem esGet_esDelete_ne (m : List (String × EditState)) (k k₂ : String)
    (h : k₂ ≠ k) : esGet (esDelete m k) k₂ = esGet m k₂ := by
  induction m with
  | nil => simp [esDelete, esGet]
  | cons p rest ih =>
    by_cases hp : p.1 == k
    · have hp2 : (p.1 == k₂) = false := by
        have : p.1 = k := by simpa using hp
        simp [this]
        exact fun heq => h heq.symm
      simpa [esDelete, List.filter, esGet, hp, hp2] using ih
    · by_cases hp2 : p.1 == k₂
      · simp [esDelete, List.filter, esGet, hp, hp2]
      · simpa [esDelete, List.filter, esGet, hp, hp2] using ih

namespace StagingApp

theorem getDirective_editStates (s : AppState) (es : List (String × EditState)) :
    getDirective { s with editStates := es } = getDirective s := rfl

theorem updateCommitButton_currentIndex (s : AppState) :
    (updateCommitButton s).currentIndex = s.currentIndex := by
  unfold updateCommitButton
  cases getDirective s <;> rfl

theorem updateCommitButton_directives (s : AppState) :
    (updateCommitButton s).directives = s.directives := by
  unfold updateCommitButton
  cases getDirective s <;> rfl

theorem updateCommitButton_editStates (s : AppState) :
    (updateCommitButton s).editStates = s.editStates := by
  unfold updateCommitButton
  cases getDirective s <;> rfl

/-- What loadTransaction does to the fields the claims depend on: the
cursor and queue are untouched, and the draft store is either untouched
or extended with the default draft for the current item when it had
none. -/
theorem loadTransaction_spec (s : AppState) (fe : Option String) :
    (loadTransaction s fe).currentIndex = s.currentIndex ∧
    (loadTransaction s fe).directives = s.directives ∧
    ((loadTransaction s fe).editStates = s.editStates ∨
      (∃ cur, getDirective s = some cur ∧ fe = none ∧
        esGet s.editStates cur.id = none ∧
        (loadTransaction s fe).editStates = esSet s.editStates cur.id defaultDraft)) := by
  unfold loadTransaction
  cases hd : getDirective s with
  | none => exact ⟨rfl, rfl, Or.inl rfl⟩
  | some cur =>
    cases fe with
    | some e => exact ⟨rfl, rfl, Or.inl rfl⟩
    | none =>
      cases hh : esHas s.editStates cur.id with
      | true =>
        refine ⟨?_, ?_, Or.inl ?_⟩ <;>
          simp [hh, clearMessage, updateCommitButton_currentIndex,
            updateCommitButton_directives, updateCommitButton_editStates]
      | false =>
        have hget : esGet s.editStates cur.id = none := by
          unfold esHas at hh
          cases hg : esGet s.editStates cur.id
          · rfl
          · rw [hg] at hh
            simp at hh
        refine ⟨?_, ?_, Or.inr ⟨cur, rfl, rfl, hget, ?_⟩⟩ <;>
          simp [hh, clearMessage, defaultDraft, updateCommitButton_currentIndex,
            updateCommitButton_directives, updateCommitButton_editStates]

theorem loadTransaction_currentIndex (s : AppState) (fe : Option String) :
    (loadTransaction s fe).currentIndex = s.currentIndex :=
  (loadTransaction_spec s fe).1

theorem loadTransaction_directives (s : AppState) (fe : Option String) :
    (loadTransaction s fe).directives = s.directives :=
  (loadTransaction_spec s fe).2.1

/-- loadTransaction never overwrites an existing draft. -/
theorem loadTransaction_esGet_of_some (s : AppState) (fe : Option String) (k : String)
    (es : EditState) (h : esGet s.editStates k = some es) :
    esGet (loadTransaction s fe).editStates k = some es := by
  rcases (loadTransaction_spec s fe).2.2 with heq | ⟨cur, hcur, hfe, hnone, heq⟩
  · rw [heq, h]
  · rw [heq]
    have hne : k ≠ cur.id := by
      intro hk
      rw [hk, hnone] at h
      cases h
    rw [esGet_esSet_ne _ _ _ _ hne, h]

/-- loadTransaction can only create a draft for the current item id. -/
theorem loadTransaction_esGet_none (s : AppState) (fe : Option String) (k : String)
    (hne : ∀ d, getDirective s = some d → k ≠ d.id)
    (h : esGet s.editStates k = none) :
    esGet (loadTransaction s fe).editStates k = none := by
  rcases (loadTransaction_spec s fe).2.2 with heq | ⟨cur, hcur, hfe, hnone, heq⟩
  · rw [heq, h]
  · rw [heq, esGet_esSet_ne _ _ _ _ (hne cur hcur), h]

end StagingApp

theorem eraseIdx_id_ne : ∀ (l : List Directive) (i : Nat) (cur : Directive),
    l[i]? = some cur → (l.map Directive.id).Nodup →
    ∀ d ∈ l.eraseIdx i, d.id ≠ cur.id
  | [], i, cur, h, _, d, hd => by simp at h
  | a :: t, 0, cur, h, hn, d, hd => by
    simp only [List.getElem?_cons_zero, Option.some.injEq] at h
    subst h
    simp only [List.eraseIdx] at hd
    simp only [List.map_cons, List.nodup_cons] at hn
    exact fun heq => hn.1 (heq ▸ List.mem_map_of_mem _ hd)
  | a :: t, i + 1, cur, h, hn, d, hd => by
    simp only [List.getElem?_cons_succ] at h
    simp only [List.eraseIdx, List.mem_cons] at hd
    simp only [List.map_cons, List.nodup_cons] at hn
    rcases hd with hd | hd
    · subst hd
      have hcur : cur ∈ t := by
        rcases List.getElem?_eq_some.mp h with ⟨hlt, heq⟩
        exact heq ▸ List.getElem_mem hlt
      exact fun heq => hn.1 (by rw [heq]; exact List.mem_map_of_mem _ hcur)
    · exact eraseIdx_id_ne t i cur h hn.2 d hd

/-- C9: on a non-empty queue of length n, next moves the cursor to
(i + 1) mod n and prev moves it to n - 1 from 0 and to i - 1 otherwise;
on an empty queue both are no-ops that change nothing. -/
theorem c9_next_prev_wrap (s : StagingApp.AppState) (fe : Option String) :
    (s.directives = [] → StagingApp.next s fe = s ∧ StagingApp.prev s fe = s) ∧
    (s.directives ≠ [] → 0 ≤ s.currentIndex →
      (StagingApp.next s fe).currentIndex =
        (s.currentIndex + 1) % (s.directives.length : Int) ∧
      (StagingApp.prev s fe).currentIndex =
        if s.currentIndex = 0 then (s.directives.length : Int) - 1
        else s.currentIndex - 1) := by
  constructor
  · intro h
    constructor <;> simp [StagingApp.next, StagingApp.prev, h]
  · intro h hi
    have hlen : ¬s.directives.length = 0 := fun hh => h (List.length_eq_zero.mp hh)
    constructor
    · simp only [StagingApp.next, if_neg hlen]
      rw [StagingApp.loadTransaction_currentIndex]
      exact Int.tmod_eq_emod (by omega) (by omega)
    · simp only [StagingApp.prev, if_neg hlen]
      rw [StagingApp.loadTransaction_currentIndex]

/-- C6: with the current draft account absent, empty or whitespace-only,
commit surfaces a local validation error, performs no network request,
and leaves the queue, the cursor and every draft unchanged. -/
theorem c6_commit_local_validation (s : StagingApp.AppState) (cur : Directive)
    (net : StagingApp.CommitNet) (fe : Option String)
    (hcur : StagingApp.getDirective s = some cur)
    (hacc : ∀ es, esGet s.editStates cur.id = some es → jsTrim es.account = "") :
    StagingApp.commit s net fe =
      (StagingApp.showError s "Please enter an expense account", false) ∧
    (StagingApp.commit s net fe).2 = false ∧
    (StagingApp.commit s net fe).1.directives = s.directives ∧
    (StagingApp.commit s net fe).1.editStates = s.editStates ∧
    (StagingApp.commit s net fe).1.currentIndex = s.currentIndex ∧
    (StagingApp.commit s net fe).1.messageClass = "error" ∧
    (StagingApp.commit s net fe).1.messageText = "Please enter an expense account" := by
  have hmain : StagingApp.commit s net fe =
      (StagingApp.showError s "Please enter an expense account", false) := by
    unfold StagingApp.commit
    rw [hcur]
    cases hes : esGet s.editStates cur.id with
    | none => simp [hes]
    | some es =>
      have ht := hacc es hes
      simp [hes, ht]
  refine ⟨hmain, ?_, ?_, ?_, ?_, ?_, ?_⟩ <;> rw [hmain] <;> rfl

theorem loadTransaction_editStates_of_absent (s : StagingApp.AppState) (cur : Directive)
    (hcur : StagingApp.getDirective s = some cur)
    (habsent : esGet s.editStates cur.id = none) :
    (StagingApp.loadTransaction s none).editStates =
      esSet s.editStates cur.id StagingApp.defaultDraft := by
  have hh : esHas s.editStates cur.id = false := by
    unfold esHas
    rw [habsent]
    rfl
  unfold StagingApp.loadTransaction
  rw [hcur]
  simp [hh, StagingApp.clearMessage, StagingApp.updateCommitButton_editStates,
    StagingApp.defaultDraft]

theorem loadTransaction_commitDisabled_of_absent (s : StagingApp.AppState) (cur : Directive)
    (hcur : StagingApp.getDirective s = some cur)
    (habsent : esGet s.editStates cur.id = none) :
    (StagingApp.loadTransaction s none).commitDisabled =
      (StagingApp.updateCommitButton
        { s with editStates := esSet s.editStates cur.id StagingApp.defaultDraft
        }).commitDisabled := by
  have hh : esHas s.editStates cur.id = false := by
    unfold esHas
    rw [habsent]
    rfl
  unfold StagingApp.loadTransaction
  rw [hcur]
  simp [hh, StagingApp.clearMessage, StagingApp.defaultDraft]

theorem updateCommitButton_enabled (s : StagingApp.AppState) (cur : Directive)
    (es : EditState) (hcur : StagingApp.getDirective s = some cur)
    (hes : esGet s.editStates cur.id = some es)
    (hne : es.account ≠ "") (hnet : jsTrim es.account ≠ "") :
    (StagingApp.updateCommitButton s).commitDisabled = false := by
  unfold StagingApp.updateCommitButton
  rw [hcur]
  simp [hes, hne, hnet]

/-- C10: loading an item that has no draft yet creates one whose account
is the non-empty string Expenses: before any user interaction, and the
commit button is enabled as a consequence. -/
theorem c10_default_draft_enables_commit (s : StagingApp.AppState) (cur : Directive)
    (hcur : StagingApp.getDirective s = some cur)
    (habsent : esGet s.editStates cur.id = none) :
    esGet (StagingApp.loadTransaction s none).editStates cur.id =
      some StagingApp.defaultDraft ∧
    StagingApp.defaultDraft.account = "Expenses:" ∧
    StagingApp.defaultDraft.account ≠ "" ∧
    jsTrim StagingApp.defaultDraft.account ≠ "" ∧
    (StagingApp.loadTransaction s none).commitDisabled = false := by
  refine ⟨?_, rfl, by decide, by decide, ?_⟩
  · rw [loadTransaction_editStates_of_absent s cur hcur habsent]
    exact esGet_esSet_self _ _ _
  · rw [loadTransaction_commitDisabled_of_absent s cur hcur habsent]
    exact updateCommitButton_enabled _ cur StagingApp.defaultDraft
      (by rw [StagingApp.getDirective_editStates]; exact hcur)
      (esGet_esSet_self _ _ _) (by decide) (by decide)

/-- C2 counterexample: committing item a from a state with drafts for a
and b when the response reports zero remaining items empties the queue,
but the draft store is left exactly as it was, still holding both
drafts, so it is not cleared. -/
theorem c2_counterexample :
    (StagingApp.commit twoDraftState (.ok 0) none).2 = true ∧
    (StagingApp.commit twoDraftState (.ok 0) none).1.directives = [] ∧
    (StagingApp.commit twoDraftState (.ok 0) none).1.editStates =
      [("a", draftFood), ("b", draftOther)] ∧
    (StagingApp.commit twoDraftState (.ok 0) none).1.editStates ≠ [] := by
  refine ⟨by decide, by decide, by decide, by decide⟩

/-- C2 amended: a successful commit whose response reports zero remaining
items empties the queue and disables navigation and commit, but leaves
the draft store untouched: no draft is deleted, not even the committed
item draft. -/
theorem c2_amended_remaining_zero (s : StagingApp.AppState) (cur : Directive)
    (es : EditState) (fe : Option String)
    (hcur : StagingApp.getDirective s = some cur)
    (hes : esGet s.editStates cur.id = some es)
    (hacc : jsTrim es.account ≠ "") :
    (StagingApp.commit s (.ok 0) fe).2 = true ∧
    (StagingApp.commit s (.ok 0) fe).1.directives = [] ∧
    (StagingApp.commit s (.ok 0) fe).1.commitDisabled = true ∧
    (StagingApp.commit s (.ok 0) fe).1.prevDisabled = true ∧
    (StagingApp.commit s (.ok 0) fe).1.nextDisabled = true ∧
    (StagingApp.commit s (.ok 0) fe).1.editStates = s.editStates ∧
    (StagingApp.commit s (.ok 0) fe).1.currentIndex = s.currentIndex ∧
    (StagingApp.commit s (.ok 0) fe).1.messageClass = "success" ∧
    (StagingApp.commit s (.ok 0) fe).1.messageText = "All transactions committed!" := by
  have hcond : ¬(es.account = "" ∨ jsTrim es.account = "") := by
    rintro (h | h)
    · exact hacc (by rw [h]; rfl)
    · exact hacc h
  have hred : StagingApp.commit s (.ok 0) fe =
      ({ s with
          messageClass := "success", messageText := "All transactions committed!",
          transactionText := "All done!", counterText := "0/0",
          commitDisabled := true, prevDisabled := true, nextDisabled := true,
          directives := [] }, true) := by
    unfold StagingApp.commit
    rw [hcur]
    simp [hes, hcond]
  rw [hred]
  exact ⟨rfl, rfl, rfl, rfl, rfl, rfl, rfl, rfl, rfl⟩

/-- C8 counterexample: on a server-reported commit failure with payload
boom, the surfaced message is the wrapped string and not the raw payload
itself. -/
theorem c8_counterexample :
    (StagingApp.commit twoDraftState
      (.httpError (some "boom") "Internal Server Error") none).1.messageText ≠ "boom" ∧
    (StagingApp.commit twoDraftState
      (.httpError (some "boom") "Internal Server Error") none).1.messageText =
      "Failed to commit transaction: Error: boom" := by
  refine ⟨by decide, by decide⟩

/-- C8 amended: a failed commit leaves the queue, cursor and drafts
unchanged and surfaces an error message built from a fixed prefix plus
the stringified thrown error: for an HTTP failure the Error string wraps
the server error payload when present, else the HTTP statusText; for a
transport failure it wraps the string form of the thrown value. -/
theorem c8_amended_remote_failure (s : StagingApp.AppState) (cur : Directive)
    (es : EditState) (payload : Option String) (statusText errString : String)
    (fe : Option String)
    (hcur : StagingApp.getDirective s = some cur)
    (hes : esGet s.editStates cur.id = some es)
    (hacc : jsTrim es.account ≠ "") :
    StagingApp.commit s (.httpError payload statusText) fe =
      (StagingApp.showError s
        ("Failed to commit transaction: Error: " ++ payload.getD statusText), true) ∧
    StagingApp.commit s (.transportError errString) fe =
      (StagingApp.showError s ("Failed to commit transaction: " ++ errString), true) ∧
    (StagingApp.commit s (.httpError payload statusText) fe).1.directives = s.directives ∧
    (StagingApp.commit s (.httpError payload statusText) fe).1.editStates = s.editStates ∧
    (StagingApp.commit s (.httpError payload statusText) fe).1.currentIndex =
      s.currentIndex ∧
    (StagingApp.commit s (.httpError payload statusText) fe).1.messageClass = "error" ∧
    (StagingApp.commit s (.transportError errString) fe).1.directives = s.directives ∧
    (StagingApp.commit s (.transportError errString) fe).1.editStates = s.editStates ∧
    (StagingApp.commit s (.transportError errString) fe).1.currentIndex = s.currentIndex ∧
    (StagingApp.commit s (.transportError errString) fe).1.messageClass = "error" := by
  have hcond : ¬(es.account = "" ∨ jsTrim es.account = "") := by
    rintro (h | h)
    · exact hacc (by rw [h]; rfl)
    · exact hacc h
  have hred1 : StagingApp.commit s (.httpError payload statusText) fe =
      (StagingApp.showError s
        ("Failed to commit transaction: Error: " ++ payload.getD statusText), true) := by
    unfold StagingApp.commit
    rw [hcur]
    simp [hes, hcond]
  have hred2 : StagingApp.commit s (.transportError errString) fe =
      (StagingApp.showError s ("Failed to commit transaction: " ++ errString), true) := by
    unfold StagingApp.commit
    rw [hcur]
    simp [hes, hcond]
  rw [hred1, hred2]
  exact ⟨rfl, rfl, rfl, rfl, rfl, rfl, rfl, rfl, rfl, rfl⟩

/-- C1, evaluating the code at the failing input: the queue [a, b] is
viewed at index 0 (item a), and a reload returns the reordered queue
[b, a]. Id a still exists, at index 1, but reloadData keeps the raw
numeric index 0, so item b is displayed after the reload; the position
is not re-resolved by id as the spec mandates. -/
theorem c1_reload_keeps_raw_index :
    (StagingApp.getDirective baseState).map Directive.id = some "a" ∧
    [dirB, dirA][1]? = some dirA ∧ dirA.id = "a" ∧
    (StagingApp.reloadData baseState (.ok [dirB, dirA] 0 []) none).currentIndex = 0 ∧
    (StagingApp.getDirective
      (StagingApp.reloadData baseState (.ok [dirB, dirA] 0 []) none)).map Directive.id =
      some "b" := by
  refine ⟨by decide, by decide, by decide, by decide, by decide⟩

theorem getDirective_facts (s : StagingApp.AppState) (d : Directive)
    (h : StagingApp.getDirective s = some d) :
    0 ≤ s.currentIndex ∧ s.directives[s.currentIndex.toNat]? = some d := by
  unfold StagingApp.getDirective at h
  by_cases hneg : s.currentIndex < 0
  · rw [if_pos hneg] at h
    cases h
  · rw [if_neg hneg] at h
    exact ⟨by omega, h⟩

theorem getDirective_mem (s : StagingApp.AppState) (d : Directive)
    (h : StagingApp.getDirective s = some d) : d ∈ s.directives := by
  rcases getDirective_facts s d h with ⟨_, hg⟩
  rcases List.getElem?_eq_some.mp hg with ⟨hlt, heq⟩
  exact heq ▸ List.getElem_mem hlt

/-- C7: a successful commit with a positive remaining count removes
exactly the committed item from the queue (all other items keep their
ids and relative order, expressed by erasure at the cursor), deletes the
draft keyed by the committed id, keeps every other existing draft
attached to its id, and clamps the cursor to
min(previous index, new length - 1). -/
theorem c7_commit_remaining_positive (s : StagingApp.AppState) (cur : Directive)
    (es : EditState) (r : Nat) (fe : Option String)
    (hcur : StagingApp.getDirective s = some cur)
    (hes : esGet s.editStates cur.id = some es)
    (hacc : jsTrim es.account ≠ "")
    (hr : r ≠ 0)
    (hnodup : (s.directives.map Directive.id).Nodup) :
    (StagingApp.commit s (.ok r) fe).2 = true ∧
    (StagingApp.commit s (.ok r) fe).1.directives =
      s.directives.eraseIdx s.currentIndex.toNat ∧
    esGet (StagingApp.commit s (.ok r) fe).1.editStates cur.id = none ∧
    (∀ k es2, k ≠ cur.id → esGet s.editStates k = some es2 →
      esGet (StagingApp.commit s (.ok r) fe).1.editStates k = some es2) ∧
    (StagingApp.commit s (.ok r) fe).1.currentIndex =
      min s.currentIndex
        (((s.directives.eraseIdx s.currentIndex.toNat).length : Int) - 1) := by
  have hcond : ¬(es.account = "" ∨ jsTrim es.account = "") := by
    rintro (h | h)
    · exact hacc (by rw [h]; rfl)
    · exact hacc h
  rcases getDirective_facts s cur hcur with ⟨hi, hg⟩
  have hlt : s.currentIndex.toNat < s.directives.length :=
    (List.getElem?_eq_some.mp hg).1
  have hlen : (s.directives.eraseIdx s.currentIndex.toNat).length =
      s.directives.length - 1 := by
    rw [List.length_eraseIdx, if_pos hlt]
  have hred : StagingApp.commit s (.ok r) fe =
      (StagingApp.loadTransaction
        (if s.currentIndex ≥ ((s.directives.eraseIdx s.currentIndex.toNat).length : Int) then
          { s with
             editStates := esDelete s.editStates cur.id,
             directives := s.directives.eraseIdx s.currentIndex.toNat,
             currentIndex :=
               ((s.directives.eraseIdx s.currentIndex.toNat).length : Int) - 1 }
        else
          { s with
             editStates := esDelete s.editStates cur.id,
             directives := s.directives.eraseIdx s.currentIndex.toNat }) fe, true) := by
    unfold StagingApp.commit
    rw [hcur]
    simp [hes, hcond, hr]
  have hne2 : ∀ d : Directive,
      StagingApp.getDirective
        (if s.currentIndex ≥ ((s.directives.eraseIdx s.currentIndex.toNat).length : Int) then
          { s with
             editStates := esDelete s.editStates cur.id,
             directives := s.directives.eraseIdx s.currentIndex.toNat,
             currentIndex :=
               ((s.directives.eraseIdx s.currentIndex.toNat).length : Int) - 1 }
        else
          { s with
             editStates := esDelete s.editStates cur.id,
             directives := s.directives.eraseIdx s.currentIndex.toNat }) = some d →
        cur.id ≠ d.id := by
    intro d hd
    have hmem : d ∈ s.directives.eraseIdx s.currentIndex.toNat := by
      by_cases hge :
          s.currentIndex ≥ ((s.directives.eraseIdx s.currentIndex.toNat).length : Int)
      · rw [if_pos hge] at hd
        simpa using getDirective_mem _ d hd
      · rw [if_neg hge] at hd
        simpa using getDirective_mem _ d hd
    exact (eraseIdx_id_ne s.directives s.currentIndex.toNat cur hg hnodup d hmem).symm
  rw [hred]
  refine ⟨rfl, ?_, ?_, ?_, ?_⟩
  · rw [StagingApp.loadTransaction_directives]
    by_cases hge :
        s.currentIndex ≥ ((s.directives.eraseIdx s.currentIndex.toNat).length : Int)
    · rw [if_pos hge]
    · rw [if_neg hge]
  · apply StagingApp.loadTransaction_esGet_none _ _ _ hne2
    by_cases hge :
        s.currentIndex ≥ ((s.directives.eraseIdx s.currentIndex.toNat).length : Int)
    · rw [if_pos hge]
      exact esGet_esDelete_self _ _
    · rw [if_neg hge]
      exact esGet_esDelete_self _ _
  · intro k es2 hk hsome
    apply StagingApp.loadTransaction_esGet_of_some
    by_cases hge :
        s.currentIndex ≥ ((s.directives.eraseIdx s.currentIndex.toNat).length : Int)
    · rw [if_pos hge]
      rw [show ({ s with
             editStates := esDelete s.editStates cur.id,
             directives := s.directives.eraseIdx s.currentIndex.toNat,
             currentIndex :=
               ((s.directives.eraseIdx s.currentIndex.toNat).length : Int) - 1
           } : StagingApp.AppState).editStates = esDelete s.editStates cur.id from rfl]
      rw [esGet_esDelete_ne _ _ _ hk]
      exact hsome
    · rw [if_neg hge]
      rw [show ({ s with
             editStates := esDelete s.editStates cur.id,
             directives := s.directives.eraseIdx s.currentIndex.toNat
           } : StagingApp.AppState).editStates = esDelete s.editStates cur.id from rfl]
      rw [esGet_esDelete_ne _ _ _ hk]
      exact hsome
  · rw [StagingApp.loadTransaction_currentIndex]
    by_cases hge :
        s.currentIndex ≥ ((s.directives.eraseIdx s.currentIndex.toNat).length : Int)
    · rw [if_pos hge]
      simp only []
      omega
    · rw [if_neg hge]
      simp only []
      omega

/-- C3: every entry returned by filterAccounts satisfies, for each
non-empty colon-segment of the query, the per-segment prefix condition
(case-insensitivity embodied by the lower-casing in the embedded
definitions), and no catalog entry failing the condition ever appears in
the returned list. -/
theorem c3_filter_characterisation (query : String) (catalog : List String) (a : String) :
    (a ∈ StagingApp.filterAccounts catalog query →
      ∀ qp ∈ StagingApp.queryPartsOf query,
        ∃ ap ∈ StagingApp.accountPartsOf a, jsStartsWith ap qp = true) ∧
    (a ∈ catalog →
      (∃ qp ∈ StagingApp.queryPartsOf query,
        ∀ ap ∈ StagingApp.accountPartsOf a, jsStartsWith ap qp = false) →
      a ∉ StagingApp.filterAccounts catalog query) := by
  by_cases hq : query = ""
  · subst hq
    have h0 : StagingApp.queryPartsOf "" = [] := by decide
    constructor
    · intro _ qp hqp
      rw [h0] at hqp
      cases hqp
    · rintro _ ⟨qp, hqp, _⟩
      rw [h0] at hqp
      cases hqp
  · have hred : StagingApp.filterAccounts catalog query =
        List.insertionSort (StagingApp.sortRel (StagingApp.queryPartsOf query))
          (catalog.filter (fun account =>
            StagingApp.accountMatches (StagingApp.queryPartsOf query) account)) := by
      unfold StagingApp.filterAccounts
      rw [if_neg hq]
    rw [hred]
    constructor
    · intro hmem qp hqp
      rw [List.mem_insertionSort] at hmem
      have hmatch := (List.mem_filter.mp hmem).2
      simp only [StagingApp.accountMatches] at hmatch
      exact List.any_eq_true.mp (List.all_eq_true.mp hmatch qp hqp)
    · intro hc hbad hmem
      rw [List.mem_insertionSort] at hmem
      have hmatch := (List.mem_filter.mp hmem).2
      simp only [StagingApp.accountMatches] at hmatch
      rcases hbad with ⟨qp, hqp, hall⟩
      rcases List.any_eq_true.mp (List.all_eq_true.mp hmatch qp hqp) with ⟨ap, hap, hst⟩
      rw [hall ap hap] at hst
      cases hst

/-- C4 counterexample: the query consisting of a single separator is not
the empty string, so it escapes the early return; it has no non-empty
segments, matches every catalog entry, and then the ranking pass sorts
the catalog instead of returning it in its original order. -/
theorem c4_counterexample :
    StagingApp.queryPartsOf ":" = [] ∧
    StagingApp.filterAccounts ["b", "a"] ":" = ["a", "b"] ∧
    StagingApp.filterAccounts ["b", "a"] ":" ≠ ["b", "a"] := by
  refine ⟨by decide, by decide, by decide⟩

/-- C4 amended: only the literally empty query returns the catalog
unchanged with no ranking pass; every non-empty query whose
colon-segments are all empty (such as a lone separator) matches the
entire catalog but goes through the ranking pass, returning the catalog
sorted lexicographically. -/
theorem c4_amended_empty_query (catalog : List String) (query : String) :
    StagingApp.filterAccounts catalog "" = catalog ∧
    (query ≠ "" → StagingApp.queryPartsOf query = [] →
      (StagingApp.filterAccounts catalog query).Perm catalog ∧
      List.Sorted lexLe (StagingApp.filterAccounts catalog query)) := by
  refine ⟨by unfold StagingApp.filterAccounts; rw [if_pos rfl], ?_⟩
  intro hq h0
  have hred : StagingApp.filterAccounts catalog query =
      List.insertionSort (StagingApp.sortRel (StagingApp.queryPartsOf query))
        (catalog.filter (fun account =>
          StagingApp.accountMatches (StagingApp.queryPartsOf query) account)) := by
    unfold StagingApp.filterAccounts
    rw [if_neg hq]
  have hfilter : catalog.filter (fun account =>
      StagingApp.accountMatches (StagingApp.queryPartsOf query) account) = catalog := by
    apply List.filter_eq_self.mpr
    intro a _
    rw [h0]
    rfl
  constructor
  · rw [hred, hfilter]
    exact List.perm_insertionSort _ _
  · rw [hred, hfilter]
    haveI : IsTotal String (StagingApp.sortRel (StagingApp.queryPartsOf query)) :=
      ⟨StagingApp.sortRel_total _⟩
    haveI : IsTrans String (StagingApp.sortRel (StagingApp.queryPartsOf query)) :=
      ⟨fun a b c => StagingApp.sortRel_trans _ a b c⟩
    have hs := List.sorted_insertionSort
      (StagingApp.sortRel (StagingApp.queryPartsOf query)) catalog
    refine List.Pairwise.imp ?_ hs
    intro a b hab
    rcases (StagingApp.sortRel_iff _ a b).mp hab with ⟨ha, hb⟩ | ⟨_, hle⟩
    · have htrue : StagingApp.inOrderB (StagingApp.queryPartsOf query) b = true := by
        rw [h0]
        rfl
      rw [htrue] at hb
      cases hb
    · exact hle

/-- C5 counterexample: for the query b:b, the code treats the entry a:b
as matching in order (the final entry segment is reused for the trailing
query segment) although the spec scan admits no in-order witness for it;
b:a:b does admit a witness, yet a:b sorts first. -/
theorem c5_counterexample :
    StagingApp.filterAccounts ["a:b", "b:a:b"] "b:b" = ["a:b", "b:a:b"] ∧
    specInOrder (StagingApp.queryPartsOf "b:b") (StagingApp.accountPartsOf "a:b") = false ∧
    specInOrder (StagingApp.queryPartsOf "b:b")
      (StagingApp.accountPartsOf "b:a:b") = true ∧
    StagingApp.matchesInOrder (StagingApp.queryPartsOf "b:b")
      (StagingApp.accountPartsOf "a:b") = true := by
  refine ⟨by decide, by decide, by decide, by decide⟩

/-- C5 amended: for a non-empty query the output is ordered in two
buckets by the in-order scan that the code actually implements (a greedy
left-to-right scan in which, once all entry segments are consumed, each
remaining query segment is accepted exactly when the final entry segment
starts with it): entries accepted by that scan come strictly before
entries that are not, and entries of equal bucket are in case-sensitive
lexicographic ascending order. -/
theorem c5_amended_two_buckets (query : String) (catalog : List String)
    (hq : query ≠ "") :
    List.Pairwise (fun a b =>
      (StagingApp.inOrderB (StagingApp.queryPartsOf query) b = true →
        StagingApp.inOrderB (StagingApp.queryPartsOf query) a = true) ∧
      (StagingApp.inOrderB (StagingApp.queryPartsOf query) a =
          StagingApp.inOrderB (StagingApp.queryPartsOf query) b → lexLe a b))
      (StagingApp.filterAccounts catalog query) := by
  have hred : StagingApp.filterAccounts catalog query =
      List.insertionSort (StagingApp.sortRel (StagingApp.queryPartsOf query))
        (catalog.filter (fun account =>
          StagingApp.accountMatches (StagingApp.queryPartsOf query) account)) := by
    unfold StagingApp.filterAccounts
    rw [if_neg hq]
  rw [hred]
  haveI : IsTotal String (StagingApp.sortRel (StagingApp.queryPartsOf query)) :=
    ⟨StagingApp.sortRel_total _⟩
  haveI : IsTrans String (StagingApp.sortRel (StagingApp.queryPartsOf query)) :=
    ⟨fun a b c => StagingApp.sortRel_trans _ a b c⟩
  have hs := List.sorted_insertionSort
    (StagingApp.sortRel (StagingApp.queryPartsOf query))
    (catalog.filter (fun account =>
      StagingApp.accountMatches (StagingApp.queryPartsOf query) account))
  refine List.Pairwise.imp ?_ hs
  intro a b hab
  rcases (StagingApp.sortRel_iff _ a b).mp hab with ⟨ha, hb⟩ | ⟨he, hle⟩
  · refine ⟨fun hbt => absurd hbt (by rw [hb]; simp), fun heq => ?_⟩
    have : StagingApp.inOrderB (StagingApp.queryPartsOf query) b = true :=
      heq.symm.trans ha
    rw [hb] at this
    cases this
  · exact ⟨fun hbt => he.trans hbt, fun _ => hle⟩

/-- Witness for C9 at concrete states. -/
theorem c9_next_prev_wrap_witness :
    (StagingApp.next baseState none).currentIndex =
      (baseState.currentIndex + 1) % (baseState.directives.length : Int) ∧
    (StagingApp.prev baseState none).currentIndex =
      (if baseState.currentIndex = 0 then (baseState.directives.length : Int) - 1
       else baseState.currentIndex - 1) ∧
    StagingApp.next emptyState none = emptyState ∧
    StagingApp.prev emptyState none = emptyState := by
  have h1 := (c9_next_prev_wrap baseState none).2 (by decide) (by decide)
  have h2 := (c9_next_prev_wrap emptyState none).1 (by decide)
  exact ⟨h1.1, h1.2, h2.1, h2.2⟩

/-- Witness for C6 at a concrete whitespace-only draft. -/
theorem c6_commit_local_validation_witness :
    StagingApp.commit blankDraftState (.ok 0) none =
      (StagingApp.showError blankDraftState "Please enter an expense account", false) := by
  refine (c6_commit_local_validation blankDraftState dirA (.ok 0) none (by decide) ?_).1
  intro es hes
  have hcomp : esGet blankDraftState.editStates dirA.id =
      some { account := "   ", payee := none, narration := none } := by decide
  rw [hcomp] at hes
  cases hes
  decide

/-- Witness for C10 at a concrete state with no draft. -/
theorem c10_default_draft_enables_commit_witness :
    esGet (StagingApp.loadTransaction baseState none).editStates dirA.id =
      some StagingApp.defaultDraft ∧
    (StagingApp.loadTransaction baseState none).commitDisabled = false := by
  have h := c10_default_draft_enables_commit baseState dirA (by decide) (by decide)
  exact ⟨h.1, h.2.2.2.2⟩

/-- Witness for the amended C2 at a concrete state. -/
theorem c2_amended_remaining_zero_witness :
    (StagingApp.commit twoDraftState (.ok 0) none).1.directives = [] ∧
    (StagingApp.commit twoDraftState (.ok 0) none).1.editStates =
      twoDraftState.editStates ∧
    (StagingApp.commit twoDraftState (.ok 0) none).1.commitDisabled = true := by
  have h := c2_amended_remaining_zero twoDraftState dirA draftFood none (by decide)
    (by decide) (by decide)
  exact ⟨h.2.1, h.2.2.2.2.2.1, h.2.2.1⟩

/-- Witness for the amended C8 at a concrete state. -/
theorem c8_amended_remote_failure_witness :
    StagingApp.commit twoDraftState (.httpError (some "boom") "Internal Server Error")
      none =
      (StagingApp.showError twoDraftState
        ("Failed to commit transaction: Error: " ++
          (some "boom" : Option String).getD "Internal Server Error"), true) ∧
    StagingApp.commit twoDraftState (.transportError "TypeError: Failed to fetch") none =
      (StagingApp.showError twoDraftState
        ("Failed to commit transaction: " ++ "TypeError: Failed to fetch"), true) := by
  have h := c8_amended_remote_failure twoDraftState dirA draftFood (some "boom")
    "Internal Server Error" "TypeError: Failed to fetch" none (by decide) (by decide)
    (by decide)
  exact ⟨h.1, h.2.1⟩

/-- Witness for C7 at a concrete state with two items and two drafts. -/
theorem c7_commit_remaining_positive_witness :
    (StagingApp.commit twoDraftState (.ok 1) none).2 = true ∧
    (StagingApp.commit twoDraftState (.ok 1) none).1.directives =
      twoDraftState.directives.eraseIdx twoDraftState.currentIndex.toNat ∧
    esGet (StagingApp.commit twoDraftState (.ok 1) none).1.editStates dirA.id = none ∧
    esGet (StagingApp.commit twoDraftState (.ok 1) none).1.editStates "b" =
      some draftOther ∧
    (StagingApp.commit twoDraftState (.ok 1) none).1.currentIndex =
      min twoDraftState.currentIndex
        (((twoDraftState.directives.eraseIdx twoDraftState.currentIndex.toNat).length :
          Int) - 1) := by
  have h := c7_commit_remaining_positive twoDraftState dirA draftFood 1 none
    (by decide) (by decide) (by decide) (by decide) (by decide)
  exact ⟨h.1, h.2.1, h.2.2.1, h.2.2.2.1 "b" draftOther (by decide) (by decide),
    h.2.2.2.2⟩

/-- Witness for the amended C4 at a concrete catalog and the
separator-only queries : and ::. -/
theorem c4_amended_empty_query_witness :
    StagingApp.filterAccounts ["b", "a"] "" = ["b", "a"] ∧
    (StagingApp.filterAccounts ["b", "a"] ":").Perm ["b", "a"] ∧
    List.Sorted lexLe (StagingApp.filterAccounts ["b", "a"] ":") ∧
    (StagingApp.filterAccounts ["b", "a"] "::").Perm ["b", "a"] ∧
    List.Sorted lexLe (StagingApp.filterAccounts ["b", "a"] "::") := by
  have h1 := (c4_amended_empty_query ["b", "a"] ":").2 (by decide) (by decide)
  have h2 := (c4_amended_empty_query ["b", "a"] "::").2 (by decide) (by decide)
  exact ⟨(c4_amended_empty_query ["b", "a"] ":").1, h1.1, h1.2, h2.1, h2.2⟩

/-- Witness for C3 at the example from the spec. -/
theorem c3_filter_characterisation_witness :
    "Expenses:Food:Restaurant" ∈ StagingApp.filterAccounts exampleCatalog "fo:r" ∧
    (∀ qp ∈ StagingApp.queryPartsOf "fo:r",
      ∃ ap ∈ StagingApp.accountPartsOf "Expenses:Food:Restaurant",
        jsStartsWith ap qp = true) := by
  refine ⟨by decide, ?_⟩
  exact (c3_filter_characterisation "fo:r" exampleCatalog "Expenses:Food:Restaurant").1
    (by decide)

/-- Witness for the amended C5 at a concrete query and catalog. -/
theorem c5_amended_two_buckets_witness :
    List.Pairwise (fun a b =>
      (StagingApp.inOrderB (StagingApp.queryPartsOf "ex") b = true →
        StagingApp.inOrderB (StagingApp.queryPartsOf "ex") a = true) ∧
      (StagingApp.inOrderB (StagingApp.queryPartsOf "ex") a =
          StagingApp.inOrderB (StagingApp.queryPartsOf "ex") b → lexLe a b))
      (StagingApp.filterAccounts exampleCatalog "ex") :=
  c5_amended_two_buckets "ex" exampleCatalog (by decide)

